import Mathlib

/-!
Verification of the crawl-and-extract pipeline of the `Information` repository
(`crawler/robots_checker.py`, `crawler/crawler.py`, `crawler/scraper.py`,
`crawler/scheduler.py`).

The Python source is shallowly embedded: pure helper functions become Lean
functions on `String` / `List Char`; the stateful crawler becomes explicit
state passing over a `CrawlState`; network, browser, MongoDB and the HTML
parser (BeautifulSoup) are abstracted as explicit environments whose results
are fed to the faithfully translated program logic.  Python regexes are
hand-compiled to deterministic matchers: each compilation step is justified in
a comment next to the definition (the patterns used by the source only contain
character classes whose alternatives are decided deterministically, plus
trailing greedy runs).
-/

namespace Information

/-! ## Basic character and string utilities -/

/-- A whitespace character, as matched by `\s` in the source's regexes
(restricted to the ASCII whitespace characters; the source never feeds
non-ASCII whitespace to these patterns). -/
def isWs (c : Char) : Bool :=
  c = ' ' || c = '\t' || c = '\n' || c = '\r' || c = '\x0b' || c = '\x0c'

/-- A character of the class `[\s-]` (optional separator inside phone
patterns). -/
def isSepChar (c : Char) : Bool := isWs c || c = '-'

/-- The `[0-9]` -/
def isDig (c : Char) : Bool := '0' ≤ c && c ≤ '9'

/-- ASCII `[a-z]` -/
def isLowerAZ (c : Char) : Bool := 'a' ≤ c && c ≤ 'z'

/-- ASCII `[A-Z]` -/
def isUpperAZ (c : Char) : Bool := 'A' ≤ c && c ≤ 'Z'

/-- ASCII letter `[a-zA-Z]` -/
def isLetterAZ (c : Char) : Bool := isLowerAZ c || isUpperAZ c

/-- A regex word character `\w` (ASCII fragment), used for `\b` boundaries. -/
def isWordChar (c : Char) : Bool := isLetterAZ c || isDig c || c = '_'

/-- The `pat` is a prefix of `s` (decidable, on char lists). -/
def prefixOfB : List Char → List Char → Bool
  | [], _ => true
  | _ :: _, [] => false
  | a :: as, b :: bs => a == b && prefixOfB as bs

/-- Python's `pat in s` substring test, on char lists. -/
def containsL : List Char → List Char → Bool
  | s, pat =>
    match s with
    | [] => prefixOfB pat []
    | _ :: t => prefixOfB pat (s) || containsL t pat

/-- Python's `pat in s` substring test on strings. -/
def containsStr (s pat : String) : Bool := containsL s.toList pat.toList

/-- Python `str.lower()` (ASCII). -/
def toLowerStr (s : String) : String := String.mk (s.toList.map Char.toLower)

/-- Python `str.strip()`: drop leading/trailing whitespace. -/
def stripStr (s : String) : String :=
  String.mk (((s.toList.dropWhile isWs).reverse.dropWhile isWs).reverse)

/-- Python `str.replace(" ", "_")`. -/
def spacesToUnderscores (s : String) : String :=
  String.mk (s.toList.map fun c => if c = ' ' then '_' else c)

/-- Number of whitespace-separated words, Python `len(s.split())`. -/
def wordCount (s : String) : Nat :=
  ((s.toList.splitOnP (fun c => isWs c)).filter (fun w => w ≠ [])).length

/-! ## URL parsing (simplified `urllib.parse`)

`urlparse` is embedded only as far as the source uses it: extracting the
scheme and the network location.  A URL without `"://"` has empty scheme and
netloc (matching `urlparse` on the inputs the crawler produces). -/

/-- Split a char list at the first occurrence of `sep`. -/
def splitOnFirst : List Char → List Char → Option (List Char × List Char)
  | s, sep =>
    match s with
    | [] => none
    | c :: t =>
      if prefixOfB sep s then some ([], s.drop sep.length)
      else
        match splitOnFirst t sep with
        | some (a, b) => some (c :: a, b)
        | none => none

/-- The `urlparse(url).scheme` (simplified). -/
def urlScheme (url : String) : String :=
  match splitOnFirst url.toList "://".toList with
  | some (a, _) => String.mk a
  | none => ""

/-- The `urlparse(url).netloc` (simplified): the part between `"://"` and the next
`/`, `?` or `#`. -/
def urlNetloc (url : String) : String :=
  match splitOnFirst url.toList "://".toList with
  | some (_, rest) =>
    String.mk (rest.takeWhile (fun c => c ≠ '/' && c ≠ '?' && c ≠ '#'))
  | none => ""

/-- The `f"{parsed.scheme}://{parsed.netloc}"`, the domain key used by
`RobotsChecker`. -/
def urlDomain (url : String) : String := urlScheme url ++ "://" ++ urlNetloc url

/-- The `url.split("#")[0]` in `WebCrawler._extract_links`. -/
def stripFragment (url : String) : String :=
  String.mk (url.toList.takeWhile (fun c => c ≠ '#'))

/-- The `urljoin(base_url, href)` (simplified RFC 3986 resolution, covering the
three cases the crawler meets: absolute URLs, host-relative paths and
document-relative paths). -/
def urljoin (base href : String) : String :=
  if href = "" then base
  else if (splitOnFirst href.toList "://".toList).isSome then href
  else if href.toList.head? = some '/' then urlDomain base ++ href
  else
    -- resolve against the base directory: drop the last path segment of base
    match splitOnFirst base.toList "://".toList with
    | some (schemePart, rest) =>
      let path := rest.dropWhile (fun c => c ≠ '/')
      let netloc := rest.takeWhile (fun c => c ≠ '/')
      let dir := (path.reverse.dropWhile (fun c => c ≠ '/')).reverse
      let dir := if dir = [] then ['/'] else dir
      String.mk schemePart ++ "://" ++ String.mk netloc ++ String.mk dir ++ href
    | none => href

/-! ## Phone-number regex (hand-compiled)

The source uses two phone patterns:

* in `WebScraper._normalize_record` (and the small-element scan of
  `_extract_structured_data`):
  `(\+?92[\s-]?[0-9]{2}[\s-]?[0-9]{7,9}|0[0-9]{2}[\s-]?[0-9]{7,9}|\+?[0-9]{10,13})`
* in `WebScraper._extract_info_from_text`:
  `(\+?92[\s-]?[0-9]{2}[\s-]?[0-9]{7,9}|0[0-9]{2}[\s-]?[0-9]{7,9})`

Each alternative is compiled to a deterministic matcher returning the number
of characters consumed.  Determinism of the compilation: each optional
single-character class (`\+?`, `[\s-]?`) is followed by a token whose
character set is disjoint from it (a digit, or `9`), so consuming the optional
character when it is present is the only branch that can succeed; the final
greedy run `[0-9]{lo,hi}` is at the end of its alternative, so it matches
`min(available digits, hi)` characters and succeeds iff that is `≥ lo`. -/

/-- Number of leading `[0-9]` characters. -/
def digitRun : List Char → Nat
  | [] => 0
  | c :: cs => if isDig c then digitRun cs + 1 else 0

/-- The `[\s-]?` : consume one separator if present; returns chars consumed and
the rest. -/
def sepOpt : List Char → Nat × List Char
  | [] => (0, [])
  | c :: cs => if isSepChar c then (1, cs) else (0, c :: cs)

/-- Trailing `[0-9]{lo,hi}` (greedy, end of alternative): number of digits
consumed, or `none` when fewer than `lo` are available. -/
def tailDigits (lo hi : Nat) (cs : List Char) : Option Nat :=
  if lo ≤ min (digitRun cs) hi then some (min (digitRun cs) hi) else none

/-- The `[\s-]?` followed by a matcher for the rest of the alternative. -/
def sepThen (f : List Char → Option Nat) (cs : List Char) : Option Nat :=
  let (s, cs') := sepOpt cs
  (f cs').map (· + s)

/-- The `[0-9]{2}[\s-]?[0-9]{7,9}` : the common tail of the two Pakistani-number
alternatives. -/
def twoDigSepDigits (cs : List Char) : Option Nat :=
  match cs with
  | a :: b :: cs' =>
    if isDig a && isDig b then (sepThen (tailDigits 7 9) cs').map (· + 2)
    else none
  | _ => none

/-- The `92[\s-]?[0-9]{2}[\s-]?[0-9]{7,9}`. -/
def altPk92core (cs : List Char) : Option Nat :=
  match cs with
  | c1 :: c2 :: cs2 =>
    if c1 = '9' && c2 = '2' then (sepThen twoDigSepDigits cs2).map (· + 2)
    else none
  | _ => none

/-- Alternative `\+?92[\s-]?[0-9]{2}[\s-]?[0-9]{7,9}` : chars consumed at this
position, if it matches.  (`\+?` is deterministic: when a `+` is present, not
consuming it puts `+` where `9` is required, which fails.) -/
def altPk92 : List Char → Option Nat
  | [] => none
  | c :: t => if c = '+' then (altPk92core t).map (· + 1) else altPk92core (c :: t)

/-- Alternative `0[0-9]{2}[\s-]?[0-9]{7,9}`. -/
def altPk0 : List Char → Option Nat
  | [] => none
  | c :: t => if c = '0' then (twoDigSepDigits t).map (· + 1) else none

/-- Alternative `\+?[0-9]{10,13}`. -/
def altGen : List Char → Option Nat
  | [] => none
  | c :: t => if c = '+' then (tailDigits 10 13 t).map (· + 1) else tailDigits 10 13 (c :: t)

/-- The three-alternative phone pattern of `_normalize_record`, alternatives
tried in source order. -/
def phoneAlts3 (cs : List Char) : Option Nat :=
  match altPk92 cs with
  | some n => some n
  | none =>
    match altPk0 cs with
    | some n => some n
    | none => altGen cs

/-- The two-alternative phone pattern of `_extract_info_from_text`. -/
def phoneAlts2 (cs : List Char) : Option Nat :=
  match altPk92 cs with
  | some n => some n
  | none => altPk0 cs

/-- The `re.search` / first element of `re.findall` for an alternation of the
above matchers: scan start positions left to right, return the matched text.
(None of the alternatives matches the empty string, so the final empty
position cannot match.) -/
def reFirst (alts : List Char → Option Nat) : List Char → Option (List Char)
  | [] => none
  | c :: cs =>
    match alts (c :: cs) with
    | some n => some ((c :: cs).take n)
    | none => reFirst alts cs

/-- First match of the 3-alternative phone pattern in `s`
(`re.search(phone_pattern, s)` in `_normalize_record`). -/
def phoneFind3 (s : String) : Option String :=
  (reFirst phoneAlts3 s.toList).map String.mk

/-- First match of the 2-alternative phone pattern in `s`
(`re.findall(phone_pattern, s)[0]` in `_extract_info_from_text`). -/
def phoneFind2 (s : String) : Option String :=
  (reFirst phoneAlts2 s.toList).map String.mk

/-! ## Name regex (hand-compiled)

`name_pattern = r'\b([A-Z][a-z]+(?:\s+[A-Z][a-z]+){1,3})\b'`.

Compilation notes: inside each `[A-Z][a-z]+` word, a shorter-than-maximal
`[a-z]+` run would put the following `\b` or `\s` where a lowercase letter
stands, which always fails, so the run is maximal; likewise `\s+` is maximal
because `[A-Z]` never matches whitespace.  The greedy group repetition
`{1,3}` prefers more groups; when the trailing `\b` fails after `g ≥ 2`
groups, backtracking drops the last group and the boundary then falls before
that group's leading whitespace (a non-word char after a lowercase letter),
which always succeeds; with `g = 1` no further repetition count is allowed
and the position fails. -/

/-- Length of the maximal leading run of characters satisfying `p`. -/
def runCt (p : Char → Bool) : List Char → Nat
  | [] => 0
  | c :: cs => if p c then runCt p cs + 1 else 0

/-- The `[A-Z][a-z]+` : the matched word and the rest. -/
def matchCapWord : List Char → Option (List Char × List Char)
  | [] => none
  | c :: t =>
    if isUpperAZ c then
      let k := runCt isLowerAZ t
      if 1 ≤ k then some (c :: t.take k, t.drop k) else none
    else none

/-- The `\s+[A-Z][a-z]+` : one extension group of the name pattern. -/
def matchWsWord (cs : List Char) : Option (List Char × List Char) :=
  let k := runCt isWs cs
  if 1 ≤ k then
    match matchCapWord (cs.drop k) with
    | some (w, rest) => some (cs.take k ++ w, rest)
    | none => none
  else none

/-- Greedily parse up to `fuel` extension groups; returns the group texts in
order and the rest. -/
def nameGroupsList : Nat → List Char → List (List Char) × List Char
  | 0, cs => ([], cs)
  | fuel + 1, cs =>
    match matchWsWord cs with
    | some (w, rest) =>
      let (ws, rest') := nameGroupsList fuel rest
      (w :: ws, rest')
    | none => ([], cs)

/-- The trailing `\b` holds at the current position (next char is not a word
char, or end of text). -/
def okEnd : List Char → Bool
  | [] => true
  | c :: _ => !isWordChar c

/-- Match of the name pattern anchored at this position (leading `\b` is
checked by the scanner). -/
def nameAt (cs : List Char) : Option (List Char) :=
  match matchCapWord cs with
  | none => none
  | some (w0, rest0) =>
    let (gs, rest) := nameGroupsList 3 rest0
    match gs with
    | [] => none
    | [g] => if okEnd rest then some (w0 ++ g) else none
    | _ =>
      if okEnd rest then some (w0 ++ gs.flatten)
      else some (w0 ++ gs.dropLast.flatten)

/-- Scan for the first name-pattern match; `prev` is the character before the
current position, for the leading `\b`.  (When `prev` is a word character the
boundary check fails for any text the pattern could match, since the pattern
starts with `[A-Z]`.) -/
def nameScan : Option Char → List Char → Option (List Char)
  | _, [] => none
  | prev, c :: t =>
    let bOK := match prev with
      | none => true
      | some p => !isWordChar p
    match (if bOK then nameAt (c :: t) else none) with
    | some m => some m
    | none => nameScan (some c) t

/-- First match of the capitalized-name pattern
(`re.findall(name_pattern, text)[0]`). -/
def nameFind (s : String) : Option String := (nameScan none s.toList).map String.mk

/-! ## Institution and address regexes (hand-compiled)

Institution: for each keyword in order, the source tries
`rf'\b([A-Z][a-zA-Z\s]+{keyword}[a-zA-Z\s]*)\b'` with `re.IGNORECASE` and
takes the first keyword that matches (`break`).  Address:
`r'([A-Z][a-zA-Z\s]+(?:Street|Road|Avenue|Lane|Area|Block|Sector|City)[a-zA-Z\s]*)'`
(case-sensitive, no boundaries).

Compilation notes: after the leading letter, all of `[a-zA-Z\s]+`, the
keyword, and `[a-zA-Z\s]*` lie inside the maximal run of letter-or-whitespace
characters that follows the leading letter (the keyword is all letters).
Greedy backtracking tries the `+`-split from the longest down; after the
keyword, the greedy `*` extends to the run's end and, for the institution
pattern only, backtracks until the trailing `\b` holds.  For the address
pattern (no trailing `\b`) the match always extends to the run's end, so its
text is independent of the split and the chosen keyword; only existence of a
split matters. -/

/-- The `[a-zA-Z\s]` run length. -/
def classRunIA (cs : List Char) : Nat := runCt (fun c => isLetterAZ c || isWs c) cs

/-- Case-insensitive prefix test (ASCII). -/
def ciPrefixB : List Char → List Char → Bool
  | [], _ => true
  | _ :: _, [] => false
  | k :: ks, c :: cs => (Char.toLower c == Char.toLower k) && ciPrefixB ks cs

/-- First `some` of `pred` on `hi, hi-1, …, lo` (descending, the regex
backtracking order). -/
def descFirst (lo hi : Nat) (pred : Nat → Option α) : Option α :=
  ((List.range' lo (hi + 1 - lo)).reverse).findSome? pred

/-- The `\b` between two optional characters (text edges are non-word). -/
def boundaryB (a b : Option Char) : Bool :=
  (match a with | some x => isWordChar x | none => false) !=
  (match b with | some y => isWordChar y | none => false)

/-- Institution pattern anchored at this position: leading letter `c`
(`[A-Z]` under `IGNORECASE`), then the backtracking search described above.
Returns the matched text. -/
def instAt (kw : List Char) (prevOK : Bool) (c : Char) (t : List Char) :
    Option (List Char) :=
  if prevOK && isLetterAZ c then
    let L := classRunIA t
    descFirst 1 L (fun j =>
      if ciPrefixB kw (t.drop j) then
        descFirst (j + kw.length) L (fun q =>
          if boundaryB (t.get? (q - 1)) (t.get? q) then some (c :: t.take q)
          else none)
      else none)
  else none

/-- Scan for the first institution-pattern match. -/
def instScan (kw : List Char) : Option Char → List Char → Option (List Char)
  | _, [] => none
  | prev, c :: t =>
    let bOK := match prev with
      | none => true
      | some p => !isWordChar p
    match instAt kw bOK c t with
    | some m => some m
    | none => instScan kw (some c) t

/-- The keyword loop of `_extract_info_from_text` for institutions (first
keyword whose pattern matches wins, value stripped). -/
def institutionKeywords : List String :=
  ["school", "college", "university", "academy", "institute"]

def findInstitution (text : String) : Option String :=
  institutionKeywords.findSome? fun kw =>
    (instScan kw.toList none text.toList).map (fun m => stripStr (String.mk m))

/-- The address keyword alternation, in source order. -/
def addressKeywords : List String :=
  ["Street", "Road", "Avenue", "Lane", "Area", "Block", "Sector", "City"]

/-- Some keyword (case-sensitive) occurs at an offset `1 ≤ j ≤ L` after the
leading capital. -/
def addressKeywordAt (t : List Char) (L : Nat) : Bool :=
  (List.range' 1 L).any fun j =>
    addressKeywords.any fun kw => prefixOfB kw.toList (t.drop j)

/-- Address pattern anchored at this position (no boundaries; the match, when
it exists, always spans to the end of the letter-or-whitespace run). -/
def addressAt (c : Char) (t : List Char) : Option (List Char) :=
  if isUpperAZ c && addressKeywordAt t (classRunIA t) then
    some (c :: t.take (classRunIA t))
  else none

def addressScan : List Char → Option (List Char)
  | [] => none
  | c :: t =>
    match addressAt c t with
    | some m => some m
    | none => addressScan t

/-- First match of the address pattern
(`re.findall(address_pattern, text)[0]`). -/
def addressFind (s : String) : Option String := (addressScan s.toList).map String.mk

/-! ## Records: `_normalize_record`, `_extract_info_from_text`,
`_extract_tables`, `_extract_structured_data` (`crawler/scraper.py`) -/

/-- A scraped record: the five standard fields plus provenance and the
metadata mapping.  (`scraped_at = datetime.utcnow()` is a wall-clock
timestamp and is not modelled; no claim concerns it.) -/
structure ScrapedRecord where
  source_url : String
  name : Option String := none
  phone : Option String := none
  address : Option String := none
  institution : Option String := none
  organization : Option String := none
  metadata : List (String × String) := []
deriving DecidableEq

/-- Python truthiness of an optional string field (`normalized.get(field)`). -/
def truthy : Option String → Bool
  | some s => s != ""
  | none => false

/-- The field-synonym table of `_normalize_record`. -/
def nameSyns : List String := ["name", "student_name", "person", "student", "candidate"]
def phoneSyns : List String :=
  ["phone", "telephone", "contact", "phone_number", "mobile", "contact_number",
   "phone_no", "tel", "telephone_number", "cell", "cellphone", "number"]
def addressSyns : List String := ["address", "location", "area", "city"]
def institutionSyns : List String :=
  ["institution", "school", "college", "university", "education"]
def organizationSyns : List String := ["organization", "company", "business", "org"]

/-- The `record_lower[key]` : the value of the last pair whose lowered key equals
`key` (Python dict-comprehension overwrite order). -/
def dictLookup (record : List (String × String)) (key : String) : Option String :=
  record.foldl (fun acc kv => if toLowerStr kv.1 = key then some kv.2 else acc) none

/-- First synonym present in the record with a truthy stripped value; returns
the raw value (`value`), stripping happens at the assignment site. -/
def pickField (record : List (String × String)) (syns : List String) : Option String :=
  syns.findSome? fun n =>
    match dictLookup record n with
    | some v => if v != "" && stripStr v != "" then some v else none
    | none => none

/-- The `WebScraper._normalize_record`.  The record is an association list with
distinct keys (as produced by `_extract_tables`). -/
def normalize_record (record : List (String × String)) (source_url : String) :
    Option ScrapedRecord :=
  let name := (pickField record nameSyns).map stripStr
  let phone :=
    match pickField record phoneSyns with
    | some v =>
      match phoneFind3 v with
      | some m => some (stripStr m)
      | none => some (stripStr v)
    | none => none
  let address := (pickField record addressSyns).map stripStr
  let institution := (pickField record institutionSyns).map stripStr
  let organization := (pickField record organizationSyns).map stripStr
  -- `if not normalized.get("phone")`: scan all raw values for a phone number
  let phone :=
    if truthy phone then phone
    else record.findSome? fun kv =>
      if kv.2 != "" then (phoneFind3 kv.2).map stripStr else none
  let metadata := record.filter fun kv =>
    let kl := toLowerStr kv.1
    !(nameSyns.contains kl || phoneSyns.contains kl || addressSyns.contains kl ||
      institutionSyns.contains kl || organizationSyns.contains kl)
  let r : ScrapedRecord :=
    { source_url := source_url, name := name, phone := phone, address := address,
      institution := institution, organization := organization, metadata := metadata }
  if truthy r.name || truthy r.phone || truthy r.address || truthy r.institution ||
      truthy r.organization then
    some r
  else none

/-- The `WebScraper._extract_info_from_text`. -/
def extract_info_from_text (text source_url : String) : Option ScrapedRecord :=
  let r : ScrapedRecord :=
    { source_url := source_url
      phone := (phoneFind2 text).map stripStr
      name :=
        match nameFind text with
        | some nm => if 2 ≤ wordCount nm then some (stripStr nm) else none
        | none => none
      institution := findInstitution text
      address := (addressFind text).map stripStr }
  if truthy r.name || truthy r.phone || truthy r.address || truthy r.institution then
    some r
  else none

/-- Python `record[key] = cell` on a dict embedded as an association list:
overwrite in place, else append. -/
def dictInsert (d : List (String × String)) (k v : String) : List (String × String) :=
  if d.any (fun kv => kv.1 == k) then
    d.map fun kv => if kv.1 == k then (k, v) else kv
  else d ++ [(k, v)]

/-- One data row of `_extract_tables`: map cells positionally onto non-empty
headers, keys lowered with spaces replaced by underscores. -/
def rowRecord (headers : List String) (cells : List String) : List (String × String) :=
  cells.enum.foldl
    (fun rec' ic =>
      match headers.get? ic.1 with
      | some h => if h != "" then dictInsert rec' (spacesToUnderscores (toLowerStr h)) ic.2
                  else rec'
      | none => rec')
    []

/-- The `WebScraper._extract_tables`, over tables abstracted as row lists of
already-stripped cell texts (the BeautifulSoup `get_text(strip=True)` layer). -/
def extract_tables (tables : List (List (List String))) : List (List (String × String)) :=
  tables.foldl
    (fun records rows =>
      let headers := match rows.head? with | some r => r | none => []
      (rows.drop 1).foldl
        (fun recs cells =>
          if cells ≠ [] then
            let record := rowRecord headers cells
            if record ≠ [] then recs ++ [record] else recs
          else recs)
        records)
    []

/-- The `WebScraper._extract_lists` : the non-empty list-item texts. -/
def extract_lists (lis : List String) : List String := lis.filter (fun t => t != "")

/-- A parsed HTML page, abstracted at the level of the four BeautifulSoup
queries `_extract_structured_data` makes: tables (rows of cell texts),
top-level list-item texts, texts of divs/articles/sections with a
content/data/list/result class, and texts of all div/span/p/td/li elements. -/
structure Doc where
  tables : List (List (List String)) := []
  listItems : List String := []
  contentTexts : List String := []
  smallTexts : List String := []
deriving DecidableEq

/-- The `WebScraper._extract_structured_data`: union of the table, list,
content-div and small-element heuristics, in source order. -/
def extract_structured_data (doc : Doc) (url : String) : List ScrapedRecord :=
  let tableRecs := (extract_tables doc.tables).filterMap fun r => normalize_record r url
  let listRecs := (extract_lists doc.listItems).filterMap fun item =>
    extract_info_from_text item url
  let contentRecs := (doc.contentTexts.filter fun t => t != "" && 20 < t.length).filterMap
    fun t => extract_info_from_text t url
  let smallRecs := (doc.smallTexts.filter fun t =>
      t != "" && t.length < 500 && (reFirst phoneAlts3 t.toList).isSome &&
        (nameScan none t.toList).isSome).filterMap
    fun t =>
      match extract_info_from_text t url with
      | some r => if truthy r.name && truthy r.phone then some r else none
      | none => none
  tableRecs ++ listRecs ++ contentRecs ++ smallRecs

/-! ## Deduplicator/Store (`WebScraper.scrape`, save loop) -/

/-- The stored record `e` matches the duplicate-lookup query built from the
incoming record `r`: always `source_url`, plus `name` when `r` has a truthy
name, else `phone` when `r` has a truthy phone. -/
def recQueryMatches (r e : ScrapedRecord) : Bool :=
  e.source_url == r.source_url &&
  (if truthy r.name then e.name == r.name
   else if truthy r.phone then e.phone == r.phone
   else true)

/-- The `find_one(query)`-then-`insert_one` of the save loop. -/
def save_record (coll : List ScrapedRecord) (r : ScrapedRecord) : List ScrapedRecord :=
  if (coll.find? fun e => recQueryMatches r e).isSome then coll else coll ++ [r]

/-- The whole save loop of `WebScraper.scrape`. -/
def save_records (coll : List ScrapedRecord) (rs : List ScrapedRecord) :
    List ScrapedRecord :=
  rs.foldl save_record coll

/-! ## RobotsPolicy (`crawler/robots_checker.py`) -/

/-- The state/environment of a `RobotsChecker`: the `robots_read_success`
cache, the underlying `RobotFileParser.can_fetch` verdicts (per domain), and
which URLs make the check raise (network layer). -/
structure RobotsChecker where
  read_success : String → Option Bool
  parserAllows : String → String → String → Bool
  checkRaises : String → Bool

/-- The `RobotsChecker.can_fetch`.  Every branch of the source returns `True`
except the branch that returns the parser verdict when it is already
`True`. -/
def RobotsChecker.can_fetch (rc : RobotsChecker) (url user_agent : String) : Bool :=
  if rc.checkRaises url then true          -- `except: … return True` (fail open)
  else
    let domain := urlDomain url
    if rc.read_success domain == some false then true   -- fail-open cache
    else
      let allowed := rc.parserAllows domain user_agent url
      if !allowed then true                -- warn but "proceed anyway"
      else allowed

/-! ## LinkExtractor (`WebCrawler._is_valid_url`, `_extract_links`) -/

def excludedPatterns : List String :=
  ["/login", "/signin", "/register", "/signup", "/logout", "/admin", "/api/",
   ".pdf", ".doc", ".zip", "mailto:", "tel:", "javascript:"]

/-- The `WebCrawler._is_valid_url` (the `try` body never raises: parsing is
total). -/
def is_valid_url (url base_domain : String) : Bool :=
  (urlScheme url == "http" || urlScheme url == "https") &&
  urlNetloc url == urlNetloc base_domain &&
  excludedPatterns.all fun p => !containsStr (toLowerStr url) p

/-- The `WebCrawler._extract_links`, over the page's anchor `href` values (the
BeautifulSoup `find_all("a", href=True)` layer). -/
def extract_links (anchors : List String) (base_url : String) : List String :=
  let base_domain := urlNetloc base_url
  anchors.foldl
    (fun links href =>
      let absolute := stripFragment (urljoin base_url href)
      if is_valid_url absolute ("https://" ++ base_domain) then links ++ [absolute]
      else links)
    []

/-! ## Fetcher rendering state (`WebScraper._init_playwright`,
`_fetch_with_playwright`) -/

/-- Result of the synchronous Playwright fetch body for a URL (`page.goto` +
`page.content()`), or an exception inside it. -/
inductive SyncResult
  | ok (html : String)
  | err
deriving DecidableEq

/-- External browser behaviour: whether `chromium.launch` succeeds, which
URLs exceed the 90 s `future.result` timeout, and each URL's sync result. -/
structure RenderEnv where
  launchOk : Bool
  timesOut : String → Bool
  syncResult : String → SyncResult

/-- The mutable rendering flags of a `WebScraper`. -/
structure ScraperState where
  use_playwright : Bool
  browserUp : Bool
deriving DecidableEq

/-- The `WebScraper._init_playwright`: launch failure (and only launch failure)
clears `use_playwright`. -/
def init_playwright (env : RenderEnv) (st : ScraperState) : ScraperState :=
  if !st.browserUp && st.use_playwright then
    if env.launchOk then { st with browserUp := true }
    else { st with use_playwright := false }
  else st

/-- The `WebScraper._fetch_with_playwright_sync`. -/
def fetch_sync (env : RenderEnv) (st : ScraperState) (url : String) :
    Option String × ScraperState :=
  let st1 := if st.browserUp then st else init_playwright env st
  if !st1.browserUp then (none, st1)
  else
    match env.syncResult url with
    | .ok h => (some h, st1)
    | .err => (none, st1)

/-- The `WebScraper._fetch_with_playwright`: on `TimeoutError` the call returns
`None` but the submitted sync task still runs on the worker thread, so its
state effects persist; nothing in this path touches `use_playwright`. -/
def fetch_with_playwright (env : RenderEnv) (st : ScraperState) (url : String) :
    Option String × ScraperState :=
  if !st.use_playwright then (none, st)
  else if env.timesOut url then (none, (fetch_sync env st url).2)
  else fetch_sync env st url

/-! ## CrawlEngine (`WebCrawler.crawl_url`, `crawler/crawler.py`)

State passing makes the instance fields explicit: `visited_urls`, a log of
scrape events `(url, depth)` (one per `self.scraper.scrape` call), the
chronological `crawl_jobs` upsert log, and the `public_records` collection.
The network, browser and HTML parser are an environment: `render`/`static`
give `_fetch_with_playwright`/`_fetch_html` results, `docOf`/`anchors` give
the parse of a fetched HTML string, `scrapeRaises` marks URLs whose
processing raises inside the `try` (the only modelled exception source;
`time.sleep` and the politeness delay have no observable effect here and are
not modelled). -/

structure JobUpdate where
  url : String
  status : String
  pages : Nat
  error : Option String
deriving DecidableEq

structure CrawlState where
  visited : List String
  fetchLog : List (String × Nat)
  jobLog : List JobUpdate
  collection : List ScrapedRecord
deriving DecidableEq

/-- A fresh `WebCrawler` instance: empty visited set, logs and store. -/
def initState : CrawlState := ⟨[], [], [], []⟩

structure CrawlEnv where
  robots : RobotsChecker
  use_playwright : Bool
  render : String → Option String
  static : String → Option String
  docOf : String → Doc
  anchors : String → List String
  scrapeRaises : String → Bool
  errMsg : String → String

/-- The `WebCrawler.user_agent`. -/
def crawlerUA : String :=
  "Mozilla/5.0 (Windows NT 10.0; Win64; x64) AppleWebKit/537.36 (KHTML, like Gecko) Chrome/120.0.0.0 Safari/537.36"

/-- Python truthiness of `html_content` (`if not html_content`). -/
def optTruthy : Option String → Bool
  | some s => s != ""
  | none => false

/-- The `WebScraper._fetch_with_playwright` as seen by the crawler: `None`
whenever rendering is disabled. -/
def fetchPW (env : CrawlEnv) (url : String) : Option String :=
  if env.use_playwright then env.render url else none

/-- The `WebScraper.scrape`: fetch (JS iff requested and enabled, no static
fallback inside `scrape`), extract, save each record; returns the records and
the updated collection. -/
def scrapeModel (env : CrawlEnv) (coll : List ScrapedRecord) (url : String)
    (use_js : Bool) : List ScrapedRecord × List ScrapedRecord :=
  let html := if use_js && env.use_playwright then env.render url else env.static url
  if optTruthy html then
    let recs := extract_structured_data (env.docOf (html.getD "")) url
    (recs, save_records coll recs)
  else ([], coll)

/-- The `self._update_crawl_job(url, status, pages, error)` (chronological log of
upserts). -/
def pushJob (st : CrawlState) (url status : String) (pages : Nat)
    (err : Option String) : CrawlState :=
  { st with jobLog := st.jobLog ++ [⟨url, status, pages, err⟩] }

/-- The `self.visited_urls.add(url)`. -/
def markVisited (st : CrawlState) (url : String) : CrawlState :=
  { st with visited := url :: st.visited }

/-- Record a `scrape` event (`records = self.scraper.scrape(url, …)`) and the
resulting collection. -/
def recordFetch (st : CrawlState) (url : String) (depth : Nat)
    (coll : List ScrapedRecord) : CrawlState :=
  { st with collection := coll, fetchLog := st.fetchLog ++ [(url, depth)] }

/-- The `for link in links[:link_limit]` loop: skip links already visited,
else recurse and accumulate the page count. -/
def crawlLoop (recur : CrawlState → String → Nat × CrawlState) :
    Nat × CrawlState → List String → Nat × CrawlState
  | acc, [] => acc
  | (n, st), l :: ls =>
    if l ∈ st.visited then crawlLoop recur (n, st) ls
    else
      let (m, st') := recur st l
      crawlLoop recur (n + m, st') ls

/-- The `WebCrawler.crawl_url`, with explicit fuel.  Each recursive call
increments `current_depth`, so `max_depth + 1 - current_depth` is always
sufficient fuel (the fuel-0 case coincides with the
`current_depth > max_depth` guard); the invariants below are proved for every
fuel. -/
def crawlGo (env : CrawlEnv) : Nat → CrawlState → String → Nat → Nat → Nat × CrawlState
  | 0, st, _, _, _ => (0, st)
  | fuel + 1, st, url, maxd, curd =>
    if maxd < curd then (0, st)
    else if url ∈ st.visited then (0, st)
    else if !(env.robots.can_fetch url crawlerUA) then (0, st)
    else
      let st1 := markVisited st url
      if env.scrapeRaises url then
        (0, pushJob (pushJob st1 url "running" 0 none) url "failed" 0
          (some (env.errMsg url)))
      else
        let st2 := pushJob st1 url "running" 0 none
        let use_js : Bool := curd ≤ 1
        let coll' := (scrapeModel env st2.collection url use_js).2
        let st3 := recordFetch st2 url curd coll'
        if curd < maxd then
          let html1 := if use_js then fetchPW env url else none
          let html := if optTruthy html1 then html1 else env.static url
          if optTruthy html then
            let links := extract_links (env.anchors (html.getD "")) url
            let limit := if curd == 0 then 100 else 50
            let res := crawlLoop (fun s l => crawlGo env fuel s l maxd (curd + 1))
              (0, st3) (links.take limit)
            (1 + res.1, pushJob res.2 url "completed" (1 + res.1) none)
          else (1, pushJob st3 url "completed" 1 none)
        else (1, pushJob st3 url "completed" 1 none)

/-- The `WebCrawler.crawl_url(url, max_depth, current_depth)`. -/
def crawl_url (env : CrawlEnv) (st : CrawlState) (url : String)
    (max_depth current_depth : Nat) : Nat × CrawlState :=
  crawlGo env (max_depth + 1 - current_depth) st url max_depth current_depth


/-! ### Lemmas about the phone matchers

The idempotence proof (claim C9) rests on four properties of each
alternative: re-matching exactly on its own match (`PExact`), success
surviving appended text (`PMono`), consumption bounded by the text
(`PBound`), and positive consumption (`PPos`). -/

/-- The `f` still matches, with the same consumption, when its text is cut at the
end of the match. -/
def PExact (f : List Char → Option Nat) : Prop :=
  ∀ zs n, f zs = some n → f (zs.take n) = some n

/-- A match of `f` survives appending further text (possibly with a different
consumption). -/
def PMono (f : List Char → Option Nat) : Prop :=
  ∀ xs ys n, f xs = some n → ∃ k, f (xs ++ ys) = some k

/-- The `f` never consumes more characters than available. -/
def PBound (f : List Char → Option Nat) : Prop :=
  ∀ zs n, f zs = some n → n ≤ zs.length

/-- The `f` consumes at least one character. -/
def PPos (f : List Char → Option Nat) : Prop :=
  ∀ zs n, f zs = some n → 1 ≤ n

/-- Crawl-step postcondition relating the state before and after processing a
URL subtree: the visited set only grows, and the scrape log is extended by
fresh entries — pairwise-distinct URLs, none previously visited, all visited
afterwards, all fetched at depth `≤ maxd`. -/
def StepOK (maxd : Nat) (st st' : CrawlState) : Prop :=
  (∀ u, u ∈ st.visited → u ∈ st'.visited) ∧
  ∃ Δ, st'.fetchLog = st.fetchLog ++ Δ ∧
       (Δ.map Prod.fst).Nodup ∧
       ∀ q ∈ Δ, q.1 ∉ st.visited ∧ q.1 ∈ st'.visited ∧ q.2 ≤ maxd

/-! ## Concrete scenario data (spec §8 and witnesses) -/

/-- The seed URL of the spec's table scenario. -/
def url8 : String := "https://example.edu/list"

/-- The spec-scenario page: the table `| Name | Phone |` over
`| Asma Khan | 0300-1234567 |`; the cell texts also appear among the
small-element (`td`) texts, as they would for a real page. -/
def doc8 : Doc :=
  { tables := [[["Name", "Phone"], ["Asma Khan", "0300-1234567"]]]
    smallTexts := ["Asma Khan", "0300-1234567"] }

/-- The record the code actually extracts from `doc8`. -/
def rec8 : ScrapedRecord :=
  { source_url := url8, name := some "Asma Khan", phone := some "0300-1234567" }

/-- Browser environment where the launch succeeds, fetching
`https://t.example/a` exceeds the 90 s timeout, and rendering otherwise
succeeds. -/
def c5Env : RenderEnv :=
  { launchOk := true
    timesOut := fun u => u == "https://t.example/a"
    syncResult := fun _ => .ok "<html>rendered</html>" }

/-- A fresh scraper: rendering enabled, browser not yet launched. -/
def c5St : ScraperState := { use_playwright := true, browserUp := false }

/-- A robots environment that has no cached failures, allows everything and
never raises. -/
def demoRobots : RobotsChecker :=
  { read_success := fun _ => none
    parserAllows := fun _ _ _ => true
    checkRaises := fun _ => false }

/-- A crawl environment in which every fetch (rendered and static) yields no
content. -/
def c10Env : CrawlEnv :=
  { robots := demoRobots
    use_playwright := true
    render := fun _ => none
    static := fun _ => none
    docOf := fun _ => {}
    anchors := fun _ => []
    scrapeRaises := fun _ => false
    errMsg := fun _ => "" }

/-- A concrete record with a name, for the dedup witness. -/
def rec7 : ScrapedRecord :=
  { source_url := "https://example.edu/list", name := some "Asma Khan",
    phone := some "0300-1234567" }

theorem digitRun_le (cs : List Char) : digitRun cs ≤ cs.length := by
  induction cs with
  | nil => simp [digitRun]
  | cons c t ih =>
    simp only [digitRun, List.length_cons]
    split <;> omega

theorem digitRun_take (cs : List Char) (k : Nat) :
    digitRun (cs.take k) = min k (digitRun cs) := by
  induction cs generalizing k with
  | nil => simp [digitRun]
  | cons c t ih =>
    cases k with
    | zero => simp [digitRun]
    | succ k' =>
      simp only [List.take_succ_cons, digitRun]
      split
      · rw [ih]; omega
      · omega

theorem digitRun_append (xs ys : List Char) :
    digitRun (xs ++ ys) =
      if digitRun xs = xs.length then xs.length + digitRun ys else digitRun xs := by
  induction xs with
  | nil => simp [digitRun]
  | cons c t ih =>
    simp only [List.cons_append, digitRun, List.length_cons, List.append_eq]
    split
    · rw [ih]; split <;> split <;> omega
    · split <;> omega

theorem digitRun_le_append (xs ys : List Char) :
    digitRun xs ≤ digitRun (xs ++ ys) := by
  rw [digitRun_append]
  split
  · have := digitRun_le xs; omega
  · omega

theorem tailDigits_exact (lo hi : Nat) : PExact (tailDigits lo hi) := by
  intro zs n h
  simp only [tailDigits] at h ⊢
  split at h
  case isTrue hle =>
    injection h with h'
    have h1 : digitRun (zs.take n) = n := by
      rw [digitRun_take]; omega
    rw [h1]
    have h2 : min n hi = n := by omega
    rw [h2, if_pos (by omega)]
  case isFalse => exact absurd h (by simp)

theorem tailDigits_mono (lo hi : Nat) : PMono (tailDigits lo hi) := by
  intro xs ys n h
  simp only [tailDigits] at h ⊢
  split at h
  case isTrue hle =>
    have hla := digitRun_le_append xs ys
    exact ⟨min (digitRun (xs ++ ys)) hi, by rw [if_pos (by omega)]⟩
  case isFalse => exact absurd h (by simp)

theorem tailDigits_bound (lo hi : Nat) : PBound (tailDigits lo hi) := by
  intro zs n h
  simp only [tailDigits] at h
  split at h
  · injection h with h'; have := digitRun_le zs; omega
  · exact absurd h (by simp)

theorem tailDigits_pos (lo hi : Nat) (hlo : 1 ≤ lo) : PPos (tailDigits lo hi) := by
  intro zs n h
  simp only [tailDigits] at h
  split at h
  case isTrue hle => injection h with h'; omega
  case isFalse => exact absurd h (by simp)

theorem sepThen_nil (f : List Char → Option Nat) :
    sepThen f [] = (f []).map (· + 0) := rfl

theorem sepThen_cons_sep (f : List Char → Option Nat) (c : Char) (t : List Char)
    (h : isSepChar c = true) : sepThen f (c :: t) = (f t).map (· + 1) := by
  simp [sepThen, sepOpt, h]

theorem sepThen_cons_nosep (f : List Char → Option Nat) (c : Char) (t : List Char)
    (h : isSepChar c = false) : sepThen f (c :: t) = (f (c :: t)).map (· + 0) := by
  simp [sepThen, sepOpt, h]

theorem sepThen_exact (f : List Char → Option Nat)
    (hex : PExact f) (hb : PBound f) (hp : PPos f) : PExact (sepThen f) := by
  intro zs n h
  cases zs with
  | nil =>
    rw [sepThen_nil] at h
    obtain ⟨m, hm, hn⟩ := Option.map_eq_some'.mp h
    have h1 := hb _ _ hm
    have h2 := hp _ _ hm
    simp only [List.length_nil] at h1; omega
  | cons c t =>
    by_cases hc : isSepChar c
    · rw [sepThen_cons_sep f c t hc] at h
      obtain ⟨m, hm, hn⟩ := Option.map_eq_some'.mp h
      have hm' := hex t m hm
      have htake : (c :: t).take n = c :: t.take m := by
        rw [← hn, List.take_succ_cons]
      rw [htake, sepThen_cons_sep f c _ hc, hm']
      simp [hn]
    · rw [sepThen_cons_nosep f c t (by simpa using hc)] at h
      obtain ⟨m, hm, hn⟩ := Option.map_eq_some'.mp h
      have hp' := hp _ _ hm
      obtain ⟨m', rfl⟩ : ∃ m', m = m' + 1 := ⟨m - 1, by omega⟩
      have hm' := hex _ _ hm
      rw [List.take_succ_cons] at hm'
      have hn' : n = m' + 1 := by omega
      rw [hn', List.take_succ_cons,
        sepThen_cons_nosep f c _ (by simpa using hc), hm']
      simp

theorem sepThen_mono (f : List Char → Option Nat)
    (hmono : PMono f) (hb : PBound f) (hp : PPos f) : PMono (sepThen f) := by
  intro xs ys n h
  cases xs with
  | nil =>
    rw [sepThen_nil] at h
    obtain ⟨m, hm, hn⟩ := Option.map_eq_some'.mp h
    have h1 := hb _ _ hm
    have h2 := hp _ _ hm
    simp only [List.length_nil] at h1; omega
  | cons c t =>
    by_cases hc : isSepChar c
    · rw [sepThen_cons_sep f c t hc] at h
      obtain ⟨m, hm, hn⟩ := Option.map_eq_some'.mp h
      obtain ⟨k, hk⟩ := hmono t ys m hm
      exact ⟨k + 1, by rw [List.cons_append, sepThen_cons_sep f c _ hc, hk]; rfl⟩
    · rw [sepThen_cons_nosep f c t (by simpa using hc)] at h
      obtain ⟨m, hm, hn⟩ := Option.map_eq_some'.mp h
      obtain ⟨k, hk⟩ := hmono (c :: t) ys m hm
      refine ⟨k + 0, ?_⟩
      rw [List.cons_append, sepThen_cons_nosep f c _ (by simpa using hc),
        ← List.cons_append, hk]
      rfl

theorem sepThen_bound (f : List Char → Option Nat) (hb : PBound f) :
    PBound (sepThen f) := by
  intro zs n h
  cases zs with
  | nil =>
    rw [sepThen_nil] at h
    obtain ⟨m, hm, hn⟩ := Option.map_eq_some'.mp h
    have := hb _ _ hm
    omega
  | cons c t =>
    by_cases hc : isSepChar c
    · rw [sepThen_cons_sep f c t hc] at h
      obtain ⟨m, hm, hn⟩ := Option.map_eq_some'.mp h
      have := hb _ _ hm
      simp only [List.length_cons]
      omega
    · rw [sepThen_cons_nosep f c t (by simpa using hc)] at h
      obtain ⟨m, hm, hn⟩ := Option.map_eq_some'.mp h
      have := hb _ _ hm
      omega

theorem sepThen_pos (f : List Char → Option Nat) (hp : PPos f) :
    PPos (sepThen f) := by
  intro zs n h
  cases zs with
  | nil =>
    rw [sepThen_nil] at h
    obtain ⟨m, hm, hn⟩ := Option.map_eq_some'.mp h
    have := hp _ _ hm
    omega
  | cons c t =>
    by_cases hc : isSepChar c
    · rw [sepThen_cons_sep f c t hc] at h
      obtain ⟨m, hm, hn⟩ := Option.map_eq_some'.mp h
      omega
    · rw [sepThen_cons_nosep f c t (by simpa using hc)] at h
      obtain ⟨m, hm, hn⟩ := Option.map_eq_some'.mp h
      have := hp _ _ hm
      omega

theorem inner79_exact : PExact (sepThen (tailDigits 7 9)) :=
  sepThen_exact _ (tailDigits_exact 7 9) (tailDigits_bound 7 9)
    (tailDigits_pos 7 9 (by omega))

theorem inner79_mono : PMono (sepThen (tailDigits 7 9)) :=
  sepThen_mono _ (tailDigits_mono 7 9) (tailDigits_bound 7 9)
    (tailDigits_pos 7 9 (by omega))

theorem inner79_bound : PBound (sepThen (tailDigits 7 9)) :=
  sepThen_bound _ (tailDigits_bound 7 9)

theorem inner79_pos : PPos (sepThen (tailDigits 7 9)) :=
  sepThen_pos _ (tailDigits_pos 7 9 (by omega))

theorem twoDig_cons (a b : Char) (cs' : List Char) :
    twoDigSepDigits (a :: b :: cs') =
      if isDig a && isDig b then (sepThen (tailDigits 7 9) cs').map (· + 2)
      else none := rfl

theorem twoDig_exact : PExact twoDigSepDigits := by
  intro zs n h
  match zs with
  | [] => simp [twoDigSepDigits] at h
  | [a] => simp [twoDigSepDigits] at h
  | a :: b :: cs' =>
    rw [twoDig_cons] at h
    split at h
    case isTrue hd =>
      obtain ⟨m, hm, hn⟩ := Option.map_eq_some'.mp h
      have hex := inner79_exact _ _ hm
      have htake : (a :: b :: cs').take n = a :: b :: cs'.take m := by
        rw [← hn]; rfl
      rw [htake, twoDig_cons, if_pos hd, hex]
      simp [hn]
    case isFalse => exact absurd h (by simp)

theorem twoDig_mono : PMono twoDigSepDigits := by
  intro xs ys n h
  match xs with
  | [] => simp [twoDigSepDigits] at h
  | [a] => simp [twoDigSepDigits] at h
  | a :: b :: cs' =>
    rw [twoDig_cons] at h
    split at h
    case isTrue hd =>
      obtain ⟨m, hm, hn⟩ := Option.map_eq_some'.mp h
      obtain ⟨k, hk⟩ := inner79_mono cs' ys m hm
      refine ⟨k + 2, ?_⟩
      rw [List.cons_append, List.cons_append, twoDig_cons, if_pos hd, hk]
      rfl
    case isFalse => exact absurd h (by simp)

theorem twoDig_bound : PBound twoDigSepDigits := by
  intro zs n h
  match zs with
  | [] => simp [twoDigSepDigits] at h
  | [a] => simp [twoDigSepDigits] at h
  | a :: b :: cs' =>
    rw [twoDig_cons] at h
    split at h
    case isTrue hd =>
      obtain ⟨m, hm, hn⟩ := Option.map_eq_some'.mp h
      have := inner79_bound _ _ hm
      simp only [List.length_cons]
      omega
    case isFalse => exact absurd h (by simp)

theorem twoDig_pos : PPos twoDigSepDigits := by
  intro zs n h
  match zs with
  | [] => simp [twoDigSepDigits] at h
  | [a] => simp [twoDigSepDigits] at h
  | a :: b :: cs' =>
    rw [twoDig_cons] at h
    split at h
    case isTrue hd =>
      obtain ⟨m, hm, hn⟩ := Option.map_eq_some'.mp h
      omega
    case isFalse => exact absurd h (by simp)

theorem inner2_exact : PExact (sepThen twoDigSepDigits) :=
  sepThen_exact _ twoDig_exact twoDig_bound twoDig_pos

theorem inner2_mono : PMono (sepThen twoDigSepDigits) :=
  sepThen_mono _ twoDig_mono twoDig_bound twoDig_pos

theorem inner2_bound : PBound (sepThen twoDigSepDigits) :=
  sepThen_bound _ twoDig_bound

theorem inner2_pos : PPos (sepThen twoDigSepDigits) :=
  sepThen_pos _ twoDig_pos

theorem core92_cons (c1 c2 : Char) (cs2 : List Char) :
    altPk92core (c1 :: c2 :: cs2) =
      if c1 = '9' && c2 = '2' then (sepThen twoDigSepDigits cs2).map (· + 2)
      else none := rfl

theorem core92_exact : PExact altPk92core := by
  intro zs n h
  match zs with
  | [] => simp [altPk92core] at h
  | [a] => simp [altPk92core] at h
  | c1 :: c2 :: cs2 =>
    rw [core92_cons] at h
    split at h
    case isTrue hd =>
      obtain ⟨m, hm, hn⟩ := Option.map_eq_some'.mp h
      have hex := inner2_exact _ _ hm
      have htake : (c1 :: c2 :: cs2).take n = c1 :: c2 :: cs2.take m := by
        rw [← hn]; rfl
      rw [htake, core92_cons, if_pos hd, hex]
      simp [hn]
    case isFalse => exact absurd h (by simp)

theorem core92_mono : PMono altPk92core := by
  intro xs ys n h
  match xs with
  | [] => simp [altPk92core] at h
  | [a] => simp [altPk92core] at h
  | c1 :: c2 :: cs2 =>
    rw [core92_cons] at h
    split at h
    case isTrue hd =>
      obtain ⟨m, hm, hn⟩ := Option.map_eq_some'.mp h
      obtain ⟨k, hk⟩ := inner2_mono cs2 ys m hm
      refine ⟨k + 2, ?_⟩
      rw [List.cons_append, List.cons_append, core92_cons, if_pos hd, hk]
      rfl
    case isFalse => exact absurd h (by simp)

theorem core92_bound : PBound altPk92core := by
  intro zs n h
  match zs with
  | [] => simp [altPk92core] at h
  | [a] => simp [altPk92core] at h
  | c1 :: c2 :: cs2 =>
    rw [core92_cons] at h
    split at h
    case isTrue hd =>
      obtain ⟨m, hm, hn⟩ := Option.map_eq_some'.mp h
      have := inner2_bound _ _ hm
      simp only [List.length_cons]
      omega
    case isFalse => exact absurd h (by simp)

theorem core92_pos : PPos altPk92core := by
  intro zs n h
  match zs with
  | [] => simp [altPk92core] at h
  | [a] => simp [altPk92core] at h
  | c1 :: c2 :: cs2 =>
    rw [core92_cons] at h
    split at h
    case isTrue hd =>
      obtain ⟨m, hm, hn⟩ := Option.map_eq_some'.mp h
      omega
    case isFalse => exact absurd h (by simp)

theorem altPk92_cons (c : Char) (t : List Char) :
    altPk92 (c :: t) =
      if c = '+' then (altPk92core t).map (· + 1) else altPk92core (c :: t) := rfl

theorem altPk92_exact : PExact altPk92 := by
  intro zs n h
  match zs with
  | [] => simp [altPk92] at h
  | c :: t =>
    rw [altPk92_cons] at h
    split at h
    case isTrue hc =>
      subst hc
      obtain ⟨m, hm, hn⟩ := Option.map_eq_some'.mp h
      have hex := core92_exact _ _ hm
      have htake : ('+' :: t).take n = '+' :: t.take m := by
        rw [← hn]; rfl
      rw [htake, altPk92_cons, if_pos rfl, hex]
      simp [hn]
    case isFalse hc =>
      have hpos := core92_pos _ _ h
      obtain ⟨n', rfl⟩ : ∃ n', n = n' + 1 := ⟨n - 1, by omega⟩
      have hex := core92_exact _ _ h
      rw [List.take_succ_cons] at hex
      rw [List.take_succ_cons, altPk92_cons, if_neg hc, hex]

theorem altPk92_mono : PMono altPk92 := by
  intro xs ys n h
  match xs with
  | [] => simp [altPk92] at h
  | c :: t =>
    rw [altPk92_cons] at h
    split at h
    case isTrue hc =>
      subst hc
      obtain ⟨m, hm, hn⟩ := Option.map_eq_some'.mp h
      obtain ⟨k, hk⟩ := core92_mono t ys m hm
      exact ⟨k + 1, by rw [List.cons_append, altPk92_cons, if_pos rfl, hk]; rfl⟩
    case isFalse hc =>
      obtain ⟨k, hk⟩ := core92_mono (c :: t) ys n h
      rw [List.cons_append] at hk
      exact ⟨k, by rw [List.cons_append, altPk92_cons, if_neg hc, hk]⟩

theorem altPk92_bound : PBound altPk92 := by
  intro zs n h
  match zs with
  | [] => simp [altPk92] at h
  | c :: t =>
    rw [altPk92_cons] at h
    split at h
    case isTrue hc =>
      obtain ⟨m, hm, hn⟩ := Option.map_eq_some'.mp h
      have := core92_bound _ _ hm
      simp only [List.length_cons]
      omega
    case isFalse hc =>
      have := core92_bound _ _ h
      omega

theorem altPk92_pos : PPos altPk92 := by
  intro zs n h
  match zs with
  | [] => simp [altPk92] at h
  | c :: t =>
    rw [altPk92_cons] at h
    split at h
    case isTrue hc =>
      obtain ⟨m, hm, hn⟩ := Option.map_eq_some'.mp h
      omega
    case isFalse hc => exact core92_pos _ _ h

theorem altPk0_cons (c : Char) (t : List Char) :
    altPk0 (c :: t) =
      if c = '0' then (twoDigSepDigits t).map (· + 1) else none := rfl

theorem altPk0_exact : PExact altPk0 := by
  intro zs n h
  match zs with
  | [] => simp [altPk0] at h
  | c :: t =>
    rw [altPk0_cons] at h
    split at h
    case isTrue hc =>
      subst hc
      obtain ⟨m, hm, hn⟩ := Option.map_eq_some'.mp h
      have hex := twoDig_exact _ _ hm
      have htake : ('0' :: t).take n = '0' :: t.take m := by
        rw [← hn]; rfl
      rw [htake, altPk0_cons, if_pos rfl, hex]
      simp [hn]
    case isFalse => exact absurd h (by simp)

theorem altPk0_mono : PMono altPk0 := by
  intro xs ys n h
  match xs with
  | [] => simp [altPk0] at h
  | c :: t =>
    rw [altPk0_cons] at h
    split at h
    case isTrue hc =>
      subst hc
      obtain ⟨m, hm, hn⟩ := Option.map_eq_some'.mp h
      obtain ⟨k, hk⟩ := twoDig_mono t ys m hm
      exact ⟨k + 1, by rw [List.cons_append, altPk0_cons, if_pos rfl, hk]; rfl⟩
    case isFalse => exact absurd h (by simp)

theorem altPk0_bound : PBound altPk0 := by
  intro zs n h
  match zs with
  | [] => simp [altPk0] at h
  | c :: t =>
    rw [altPk0_cons] at h
    split at h
    case isTrue hc =>
      obtain ⟨m, hm, hn⟩ := Option.map_eq_some'.mp h
      have := twoDig_bound _ _ hm
      simp only [List.length_cons]
      omega
    case isFalse => exact absurd h (by simp)

theorem altPk0_pos : PPos altPk0 := by
  intro zs n h
  match zs with
  | [] => simp [altPk0] at h
  | c :: t =>
    rw [altPk0_cons] at h
    split at h
    case isTrue hc =>
      obtain ⟨m, hm, hn⟩ := Option.map_eq_some'.mp h
      omega
    case isFalse => exact absurd h (by simp)

theorem altGen_cons (c : Char) (t : List Char) :
    altGen (c :: t) =
      if c = '+' then (tailDigits 10 13 t).map (· + 1)
      else tailDigits 10 13 (c :: t) := rfl

theorem altGen_exact : PExact altGen := by
  intro zs n h
  match zs with
  | [] => simp [altGen] at h
  | c :: t =>
    rw [altGen_cons] at h
    split at h
    case isTrue hc =>
      subst hc
      obtain ⟨m, hm, hn⟩ := Option.map_eq_some'.mp h
      have hex := tailDigits_exact 10 13 _ _ hm
      have htake : ('+' :: t).take n = '+' :: t.take m := by
        rw [← hn]; rfl
      rw [htake, altGen_cons, if_pos rfl, hex]
      simp [hn]
    case isFalse hc =>
      have hpos := tailDigits_pos 10 13 (by omega) _ _ h
      obtain ⟨n', rfl⟩ : ∃ n', n = n' + 1 := ⟨n - 1, by omega⟩
      have hex := tailDigits_exact 10 13 _ _ h
      rw [List.take_succ_cons] at hex
      rw [List.take_succ_cons, altGen_cons, if_neg hc, hex]

theorem altGen_mono : PMono altGen := by
  intro xs ys n h
  match xs with
  | [] => simp [altGen] at h
  | c :: t =>
    rw [altGen_cons] at h
    split at h
    case isTrue hc =>
      subst hc
      obtain ⟨m, hm, hn⟩ := Option.map_eq_some'.mp h
      obtain ⟨k, hk⟩ := tailDigits_mono 10 13 t ys m hm
      exact ⟨k + 1, by rw [List.cons_append, altGen_cons, if_pos rfl, hk]; rfl⟩
    case isFalse hc =>
      obtain ⟨k, hk⟩ := tailDigits_mono 10 13 (c :: t) ys n h
      rw [List.cons_append] at hk
      exact ⟨k, by rw [List.cons_append, altGen_cons, if_neg hc, hk]⟩

theorem altGen_bound : PBound altGen := by
  intro zs n h
  match zs with
  | [] => simp [altGen] at h
  | c :: t =>
    rw [altGen_cons] at h
    split at h
    case isTrue hc =>
      obtain ⟨m, hm, hn⟩ := Option.map_eq_some'.mp h
      have := tailDigits_bound 10 13 _ _ hm
      simp only [List.length_cons]
      omega
    case isFalse hc =>
      have := tailDigits_bound 10 13 _ _ h
      omega

theorem altGen_pos : PPos altGen := by
  intro zs n h
  match zs with
  | [] => simp [altGen] at h
  | c :: t =>
    rw [altGen_cons] at h
    split at h
    case isTrue hc =>
      obtain ⟨m, hm, hn⟩ := Option.map_eq_some'.mp h
      omega
    case isFalse hc => exact tailDigits_pos 10 13 (by omega) _ _ h

/-- On the cut text, a previously failing alternative still fails
(contrapositive of `PMono` through `take ++ drop`). -/
theorem alt_none_take (f : List Char → Option Nat) (hmono : PMono f)
    (zs : List Char) (n : Nat) (hnone : f zs = none) : f (zs.take n) = none := by
  cases hh : f (zs.take n) with
  | none => rfl
  | some j =>
    obtain ⟨k, hk⟩ := hmono (zs.take n) (zs.drop n) j hh
    rw [List.take_append_drop] at hk
    rw [hk] at hnone
    exact absurd hnone (by simp)

theorem phoneAlts3_exact : PExact phoneAlts3 := by
  intro zs n h
  simp only [phoneAlts3] at h ⊢
  cases h92 : altPk92 zs with
  | some k =>
    simp only [h92, Option.some.injEq] at h
    subst h
    simp only [altPk92_exact zs k h92]
  | none =>
    cases h0 : altPk0 zs with
    | some k =>
      simp only [h92, h0, Option.some.injEq] at h
      subst h
      simp only [alt_none_take altPk92 altPk92_mono zs k h92,
        altPk0_exact zs k h0]
    | none =>
      simp only [h92, h0] at h
      simp only [alt_none_take altPk92 altPk92_mono zs n h92,
        alt_none_take altPk0 altPk0_mono zs n h0,
        altGen_exact zs n h]

theorem phoneAlts2_exact : PExact phoneAlts2 := by
  intro zs n h
  simp only [phoneAlts2] at h ⊢
  cases h92 : altPk92 zs with
  | some k =>
    simp only [h92, Option.some.injEq] at h
    subst h
    simp only [altPk92_exact zs k h92]
  | none =>
    simp only [h92] at h
    simp only [alt_none_take altPk92 altPk92_mono zs n h92,
      altPk0_exact zs n h]

theorem phoneAlts3_bound : PBound phoneAlts3 := by
  intro zs n h
  simp only [phoneAlts3] at h
  cases h92 : altPk92 zs with
  | some k =>
    simp only [h92, Option.some.injEq] at h
    subst h; exact altPk92_bound _ _ h92
  | none =>
    cases h0 : altPk0 zs with
    | some k =>
      simp only [h92, h0, Option.some.injEq] at h
      subst h; exact altPk0_bound _ _ h0
    | none =>
      simp only [h92, h0] at h
      exact altGen_bound _ _ h

theorem phoneAlts2_bound : PBound phoneAlts2 := by
  intro zs n h
  simp only [phoneAlts2] at h
  cases h92 : altPk92 zs with
  | some k =>
    simp only [h92, Option.some.injEq] at h
    subst h; exact altPk92_bound _ _ h92
  | none =>
    simp only [h92] at h
    exact altPk0_bound _ _ h

theorem phoneAlts3_pos : PPos phoneAlts3 := by
  intro zs n h
  simp only [phoneAlts3] at h
  cases h92 : altPk92 zs with
  | some k =>
    simp only [h92, Option.some.injEq] at h
    subst h; exact altPk92_pos _ _ h92
  | none =>
    cases h0 : altPk0 zs with
    | some k =>
      simp only [h92, h0, Option.some.injEq] at h
      subst h; exact altPk0_pos _ _ h0
    | none =>
      simp only [h92, h0] at h
      exact altGen_pos _ _ h

theorem phoneAlts2_pos : PPos phoneAlts2 := by
  intro zs n h
  simp only [phoneAlts2] at h
  cases h92 : altPk92 zs with
  | some k =>
    simp only [h92, Option.some.injEq] at h
    subst h; exact altPk92_pos _ _ h92
  | none =>
    simp only [h92] at h
    exact altPk0_pos _ _ h

/-- The scan of `reFirst` finds a suffix on which the alternation matches,
consuming exactly the returned text. -/
theorem reFirst_spec (alts : List Char → Option Nat) (hb : PBound alts) :
    ∀ cs m, reFirst alts cs = some m →
      ∃ u, alts u = some m.length ∧ u.take m.length = m := by
  intro cs
  induction cs with
  | nil => intro m h; simp [reFirst] at h
  | cons c t ih =>
    intro m h
    simp only [reFirst] at h
    cases ha : alts (c :: t) with
    | some n =>
      rw [ha] at h
      simp only [Option.some.injEq] at h
      subst h
      have hlen : ((c :: t).take n).length = n := by
        rw [List.length_take, min_eq_left (hb _ _ ha)]
      refine ⟨c :: t, ?_, ?_⟩
      · rw [hlen]; exact ha
      · rw [hlen]
    | none =>
      rw [ha] at h
      exact ih m h

/-- Idempotence of the first-match scan, given the alternation's `PExact`,
`PBound` and `PPos`. -/
theorem reFirst_idem (alts : List Char → Option Nat)
    (hex : PExact alts) (hb : PBound alts) (hp : PPos alts) :
    ∀ cs m, reFirst alts cs = some m → reFirst alts m = some m := by
  intro cs m h
  obtain ⟨u, hu, hum⟩ := reFirst_spec alts hb cs m h
  have hm := hex u m.length hu
  rw [hum] at hm
  have hp' := hp _ _ hm
  match m, hm, hp' with
  | c :: t, hm, hp' =>
    simp only [reFirst]
    rw [hm]
    simp [List.take_length]

/-! ## Claim theorems -/

/-- Every branch of `RobotsChecker.can_fetch` returns `true` (helper shared
with the crawl-engine proofs). -/
theorem can_fetch_always (rc : RobotsChecker) (url user_agent : String) :
    rc.can_fetch url user_agent = true := by
  simp only [RobotsChecker.can_fetch]
  split
  · rfl
  · split
    · rfl
    · split
      · rfl
      · next h => simpa using h

/-- C1: For every URL and every user agent, `RobotsChecker.can_fetch` returns
`true`: a failed robots retrieval fails open, an explicit disallow is
overridden with a warning, and an exception fails open — the function never
returns `false`. -/
theorem c1_can_fetch_always_allows (rc : RobotsChecker) (url user_agent : String) :
    rc.can_fetch url user_agent = true :=
  can_fetch_always rc url user_agent

/-- Any record matches the dedup query built from itself. -/
theorem recQueryMatches_self (r : ScrapedRecord) : recQueryMatches r r = true := by
  simp only [recQueryMatches, beq_self_eq_true, Bool.true_and]
  split
  · simp
  · split
    · simp
    · rfl

/-- A second save of the same record is a no-op: the first save leaves a
record matching the query, so the lookup succeeds and insertion is skipped. -/
theorem save_record_idem (coll : List ScrapedRecord) (r : ScrapedRecord) :
    save_record (save_record coll r) r = save_record coll r := by
  simp only [save_record]
  cases hfind : (coll.find? fun e => recQueryMatches r e) with
  | some e => simp [hfind]
  | none =>
    simp only [hfind, Option.isSome_none, Bool.false_eq_true, if_false]
    have hmem : ((coll ++ [r]).find? fun e => recQueryMatches r e).isSome = true := by
      rw [List.find?_isSome]
      exact ⟨r, by simp, recQueryMatches_self r⟩
    rw [if_pos hmem]

/-- C7: saving a record with a given `(source_url, name)` pair twice results
in exactly one stored record: the second save finds the existing match on the
lookup query and skips insertion. -/
theorem c7_dedup_second_save_noop (coll : List ScrapedRecord) (r : ScrapedRecord)
    (hname : truthy r.name = true) :
    save_record (save_record coll r) r = save_record coll r ∧
    (save_record (save_record [] r) r).length = 1 := by
  refine ⟨save_record_idem coll r, ?_⟩
  rw [save_record_idem]
  simp [save_record]

theorem c7_dedup_second_save_noop_witness :
    truthy rec7.name = true ∧
    save_record (save_record [] rec7) rec7 = save_record [] rec7 ∧
    (save_record (save_record [] rec7) rec7).length = 1 :=
  ⟨by decide, (c7_dedup_second_save_noop [] rec7 (by decide)).1,
    (c7_dedup_second_save_noop [] rec7 (by decide)).2⟩

/-- C5 counterexample: a rendered fetch of `https://t.example/a` times out and
returns `None`, yet `use_playwright` stays `true` and the very next rendered
fetch succeeds through the browser — rendering is not disabled by a
timeout. -/
theorem c5_timeout_keeps_rendering_cex :
    fetch_with_playwright c5Env c5St "https://t.example/a" =
      (none, { use_playwright := true, browserUp := true }) ∧
    (fetch_with_playwright c5Env { use_playwright := true, browserUp := true }
        "https://t.example/b").1 = some "<html>rendered</html>" := by
  constructor
  · rfl
  · rfl

/-- The `fetch_sync` never clears `use_playwright` when the browser is already up
or the launch succeeds. -/
theorem fetch_sync_keeps_pw (env : RenderEnv) (st : ScraperState) (url : String)
    (hup : st.browserUp = true ∨ env.launchOk = true) (hpw : st.use_playwright = true) :
    (fetch_sync env st url).2.use_playwright = true := by
  rcases hup with hb | hl
  · simp only [fetch_sync, hb, if_true, Bool.not_true, Bool.false_eq_true, if_false]
    cases env.syncResult url <;> simp [hpw]
  · cases hbu : st.browserUp
    · simp only [fetch_sync, hbu, Bool.false_eq_true, if_false, init_playwright,
        Bool.not_false, hpw, Bool.and_self, if_true, hl, Bool.not_true]
      cases env.syncResult url <;> simp [hpw]
    · simp only [fetch_sync, hbu, if_true, Bool.not_true, Bool.false_eq_true, if_false]
      cases env.syncResult url <;> simp [hpw]

/-- C5 (amended): a rendered-fetch timeout returns `None` for that call but
leaves rendering enabled (provided the browser is up or can launch); only a
browser-launch failure clears `use_playwright`, and once it is cleared every
rendered fetch returns `None` so the caller falls back to static fetch. -/
theorem c5_timeout_returns_none_render_stays :
    (∀ (env : RenderEnv) (st : ScraperState) (url : String),
      env.timesOut url = true → st.use_playwright = true →
      (st.browserUp = true ∨ env.launchOk = true) →
      (fetch_with_playwright env st url).1 = none ∧
      (fetch_with_playwright env st url).2.use_playwright = true) ∧
    (∀ (env : RenderEnv) (st : ScraperState) (url : String),
      st.use_playwright = false → fetch_with_playwright env st url = (none, st)) ∧
    (∀ (env : RenderEnv) (st : ScraperState),
      st.use_playwright = true → st.browserUp = false → env.launchOk = false →
      (init_playwright env st).use_playwright = false) := by
  refine ⟨?_, ?_, ?_⟩
  · intro env st url htime hpw hup
    constructor
    · simp [fetch_with_playwright, hpw, htime]
    · simp only [fetch_with_playwright, hpw, Bool.not_true, Bool.false_eq_true,
        if_false, htime, if_true]
      exact fetch_sync_keeps_pw env st url hup hpw
  · intro env st url hpw
    simp [fetch_with_playwright, hpw]
  · intro env st hpw hbu hl
    simp [init_playwright, hpw, hbu, hl]

theorem c5_timeout_returns_none_render_stays_witness :
    c5Env.timesOut "https://t.example/a" = true ∧ c5St.use_playwright = true ∧
    (c5St.browserUp = true ∨ c5Env.launchOk = true) ∧
    (fetch_with_playwright c5Env c5St "https://t.example/a").1 = none ∧
    (fetch_with_playwright c5Env c5St "https://t.example/a").2.use_playwright = true :=
  ⟨rfl, rfl, Or.inr rfl,
    (c5_timeout_returns_none_render_stays.1 c5Env c5St "https://t.example/a"
      rfl rfl (Or.inr rfl)).1,
    (c5_timeout_returns_none_render_stays.1 c5Env c5St "https://t.example/a"
      rfl rfl (Or.inr rfl)).2⟩

/-- C6 counterexample: two anchors with the same `href` yield the same URL
twice — `_extract_links` does not deduplicate. -/
theorem c6_extract_links_duplicates_cex :
    extract_links ["/a", "/a"] "https://x.com/" =
      ["https://x.com/a", "https://x.com/a"] ∧
    ¬ (extract_links ["/a", "/a"] "https://x.com/").Nodup := by
  constructor
  · decide
  · decide

/-- The `_extract_links` is the validity filter over the resolved anchors, in
document order. -/
theorem extract_links_eq (anchors : List String) (base_url : String) :
    extract_links anchors base_url =
      (anchors.map fun href => stripFragment (urljoin base_url href)).filter
        (fun u => is_valid_url u ("https://" ++ urlNetloc base_url)) := by
  simp only [extract_links]
  suffices h : ∀ acc, anchors.foldl
      (fun links href =>
        let absolute := stripFragment (urljoin base_url href)
        if is_valid_url absolute ("https://" ++ urlNetloc base_url) then links ++ [absolute]
        else links) acc =
      acc ++ (anchors.map fun href => stripFragment (urljoin base_url href)).filter
        (fun u => is_valid_url u ("https://" ++ urlNetloc base_url)) by
    simpa using h []
  induction anchors with
  | nil => intro acc; simp
  | cons a t ih =>
    intro acc
    simp only [List.foldl_cons, List.map_cons, List.filter_cons]
    split
    · rw [ih]; simp
    · rw [ih]

/-- C6 (amended): the returned list preserves the document order of the
anchors — it is a sublist of the resolved anchor list — but it is not
deduplicated (see the counterexample); duplicate URLs are only skipped later
by the crawler's visited check. -/
theorem c6_extract_links_order_sublist (anchors : List String) (base_url : String) :
    (extract_links anchors base_url).Sublist
      (anchors.map fun href => stripFragment (urljoin base_url href)) := by
  rw [extract_links_eq]
  exact List.filter_sublist _

/-- C8 counterexample: on the spec's table scenario the extractor yields
exactly one record, whose phone is the raw cell text `"0300-1234567"` — not
`"03001234567"`, and no returned record carries that digits-only value.  (The
phone regex does not match `"0300-1234567"`, so `_normalize_record` keeps the
raw value unchanged.) -/
theorem c8_phone_not_normalized_cex :
    extract_structured_data doc8 url8 = [rec8] ∧
    rec8.phone = some "0300-1234567" ∧
    (∀ r ∈ extract_structured_data doc8 url8, r.phone ≠ some "03001234567") := by
  refine ⟨by decide, by decide, by decide⟩

/-- C8 (amended): for the table `| Name | Phone |` / `| Asma Khan |
0300-1234567 |` at `https://example.edu/list`, the extractor yields the
record with name `"Asma Khan"`, source_url `"https://example.edu/list"` and
phone equal to the raw cell value `"0300-1234567"`: the phone pattern fails
on this format (dash after four digits), so normalization keeps the raw
string. -/
theorem c8_table_scenario_record :
    extract_structured_data doc8 url8 = [rec8] ∧
    phoneFind3 "0300-1234567" = none := by
  refine ⟨by decide, by decide⟩

/-- The `_normalize_record` returns a record only when its final guard — at least
one truthy standard field — holds. -/
theorem normalize_record_guard (record : List (String × String)) (url : String)
    (r : ScrapedRecord) (h : normalize_record record url = some r) :
    (truthy r.name || truthy r.phone || truthy r.address || truthy r.institution ||
      truthy r.organization) = true := by
  simp only [normalize_record] at h
  -- first split: the phone-fallback `if`; second: the final guard `if`
  split at h <;> split at h
  · rename_i hg; injection h with h'; subst h'; exact hg
  · exact absurd h (by simp)
  · rename_i hg; injection h with h'; subst h'; exact hg
  · exact absurd h (by simp)

/-- The `_extract_info_from_text` returns a record only when at least one of
name, phone, address, institution is truthy (it never sets organization). -/
theorem extract_info_guard (text url : String) (r : ScrapedRecord)
    (h : extract_info_from_text text url = some r) :
    (truthy r.name || truthy r.phone || truthy r.address ||
      truthy r.institution) = true := by
  simp only [extract_info_from_text] at h
  split at h
  · next hg =>
    injection h with h'
    subst h'
    exact hg
  · exact absurd h (by simp)

/-- C4: every record returned by `_extract_structured_data` (table, list or
free-text heuristic) has at least one of the five standard fields
{name, phone, address, institution, organization} non-empty; candidates with
none of them are discarded. -/
theorem c4_records_have_standard_field (doc : Doc) (url : String)
    (r : ScrapedRecord) (hr : r ∈ extract_structured_data doc url) :
    (truthy r.name || truthy r.phone || truthy r.address || truthy r.institution ||
      truthy r.organization) = true := by
  simp only [extract_structured_data, List.mem_append] at hr
  rcases hr with ((h1 | h2) | h3) | h4
  · obtain ⟨x, _, hEq⟩ := List.mem_filterMap.mp h1
    exact normalize_record_guard x url r hEq
  · obtain ⟨x, _, hEq⟩ := List.mem_filterMap.mp h2
    have hg := extract_info_guard x url r hEq
    simp only [Bool.or_eq_true] at hg ⊢
    tauto
  · obtain ⟨x, _, hEq⟩ := List.mem_filterMap.mp h3
    have hg := extract_info_guard x url r hEq
    simp only [Bool.or_eq_true] at hg ⊢
    tauto
  · obtain ⟨x, _, hEq⟩ := List.mem_filterMap.mp h4
    revert hEq
    cases hi : extract_info_from_text x url with
    | none => intro hEq; exact absurd hEq (by simp)
    | some r' =>
      intro hEq
      dsimp only at hEq
      split at hEq
      · next hg' =>
        injection hEq with h'
        subst h'
        simp only [Bool.and_eq_true] at hg'
        simp only [Bool.or_eq_true]
        tauto
      · exact absurd hEq (by simp)

theorem c4_records_have_standard_field_witness :
    rec8 ∈ extract_structured_data doc8 url8 ∧
    (truthy rec8.name || truthy rec8.phone || truthy rec8.address ||
      truthy rec8.institution || truthy rec8.organization) = true :=
  ⟨by decide, c4_records_have_standard_field doc8 url8 rec8 (by decide)⟩

/-- C9: phone extraction is idempotent.  For both phone patterns of the
source (the 3-alternative one of `_normalize_record` and the 2-alternative
one of `_extract_info_from_text`): whenever the first match in `s` is `m`,
re-running the same pattern on `m` yields `m` itself. -/
theorem c9_phone_idempotent :
    (∀ s m : String, phoneFind3 s = some m → phoneFind3 m = some m) ∧
    (∀ s m : String, phoneFind2 s = some m → phoneFind2 m = some m) := by
  constructor
  · intro s m h
    simp only [phoneFind3, Option.map_eq_some'] at h
    obtain ⟨l, hl, rfl⟩ := h
    have hidem := reFirst_idem phoneAlts3 phoneAlts3_exact phoneAlts3_bound
      phoneAlts3_pos s.toList l hl
    simp only [phoneFind3]
    have hml : (String.mk l).toList = l := rfl
    rw [hml, hidem]
    rfl
  · intro s m h
    simp only [phoneFind2, Option.map_eq_some'] at h
    obtain ⟨l, hl, rfl⟩ := h
    have hidem := reFirst_idem phoneAlts2 phoneAlts2_exact phoneAlts2_bound
      phoneAlts2_pos s.toList l hl
    simp only [phoneFind2]
    have hml : (String.mk l).toList = l := rfl
    rw [hml, hidem]
    rfl

theorem c9_phone_idempotent_witness :
    phoneFind3 "call 03331234567 now" = some "03331234567" ∧
    phoneFind3 "03331234567" = some "03331234567" ∧
    phoneFind2 "ring 033-1234567 now" = some "033-1234567" ∧
    phoneFind2 "033-1234567" = some "033-1234567" :=
  ⟨by decide, c9_phone_idempotent.1 "call 03331234567 now" "03331234567" (by decide),
    by decide, c9_phone_idempotent.2 "ring 033-1234567 now" "033-1234567" (by decide)⟩

/-! ### Crawl-engine invariants -/

theorem StepOK_refl (maxd : Nat) (st : CrawlState) : StepOK maxd st st :=
  ⟨fun _ h => h, [], by simp, List.nodup_nil, by simp⟩

theorem StepOK_trans {maxd : Nat} {s1 s2 s3 : CrawlState}
    (h12 : StepOK maxd s1 s2) (h23 : StepOK maxd s2 s3) : StepOK maxd s1 s3 := by
  obtain ⟨m12, Δ1, hf1, hn1, hq1⟩ := h12
  obtain ⟨m23, Δ2, hf2, hn2, hq2⟩ := h23
  refine ⟨fun u hu => m23 u (m12 u hu), Δ1 ++ Δ2, ?_, ?_, ?_⟩
  · rw [hf2, hf1, List.append_assoc]
  · rw [List.map_append, List.nodup_append]
    refine ⟨hn1, hn2, ?_⟩
    intro a ha1 ha2
    obtain ⟨q1, hq1m, hq1e⟩ := List.mem_map.mp ha1
    obtain ⟨q2, hq2m, hq2e⟩ := List.mem_map.mp ha2
    have h1 := hq1 q1 hq1m
    have h2 := hq2 q2 hq2m
    apply h2.1
    have hv := h1.2.1
    rw [hq1e] at hv
    rw [hq2e]
    exact hv
  · intro q hq
    rcases List.mem_append.mp hq with hq1' | hq2'
    · have h1 := hq1 q hq1'
      exact ⟨h1.1, m23 _ h1.2.1, h1.2.2⟩
    · have h2 := hq2 q hq2'
      exact ⟨fun hm => h2.1 (m12 _ hm), h2.2.1, h2.2.2⟩

theorem StepOK_pushJob (maxd : Nat) (st : CrawlState) (url status : String)
    (p : Nat) (e : Option String) : StepOK maxd st (pushJob st url status p e) :=
  ⟨fun _ h => h, [], by simp [pushJob], List.nodup_nil, by simp⟩

/-- The mark-visited / job-running / scrape step of one node: extends the
scrape log by exactly `(url, curd)`. -/
theorem StepOK_mark_push_fetch (maxd : Nat) (st : CrawlState) (url : String)
    (curd : Nat) (coll' : List ScrapedRecord)
    (hvis : url ∉ st.visited) (hd : curd ≤ maxd) :
    StepOK maxd st
      (recordFetch (pushJob (markVisited st url) url "running" 0 none) url curd coll') := by
  refine ⟨?_, [(url, curd)], rfl, by simp, ?_⟩
  · intro u hu
    exact List.mem_cons_of_mem _ hu
  · intro q hq
    simp only [List.mem_singleton] at hq
    subst hq
    exact ⟨hvis, List.mem_cons_self _ _, hd⟩

theorem crawlLoop_StepOK (maxd : Nat) (recur : CrawlState → String → Nat × CrawlState)
    (hrec : ∀ st l, StepOK maxd st (recur st l).2) :
    ∀ (ls : List String) (acc : Nat × CrawlState),
      StepOK maxd acc.2 (crawlLoop recur acc ls).2 := by
  intro ls
  induction ls with
  | nil => intro acc; exact StepOK_refl maxd acc.2
  | cons l t ih =>
    intro acc
    obtain ⟨n, st⟩ := acc
    simp only [crawlLoop]
    split
    · exact ih (n, st)
    · rcases hres : recur st l with ⟨m, st'⟩
      simp only [hres]
      have h1 := hrec st l
      rw [hres] at h1
      exact StepOK_trans h1 (ih (n + m, st'))

/-- A URL already in the visited set is skipped with result 0 and an
unchanged state. -/
theorem crawlGo_visited (env : CrawlEnv) (fuel : Nat) (st : CrawlState)
    (url : String) (maxd curd : Nat) (h : url ∈ st.visited) :
    crawlGo env fuel st url maxd curd = (0, st) := by
  cases fuel with
  | zero => rfl
  | succ f =>
    by_cases h1 : maxd < curd
    · simp only [crawlGo, if_pos h1]
    · simp only [crawlGo, if_neg h1, if_pos h]

/-- Master invariant of `crawl_url`'s recursion, for every fuel. -/
theorem crawlGo_StepOK (env : CrawlEnv) :
    ∀ (fuel maxd curd : Nat) (st : CrawlState) (url : String),
      StepOK maxd st (crawlGo env fuel st url maxd curd).2 := by
  intro fuel
  induction fuel with
  | zero => intro maxd curd st url; exact StepOK_refl maxd st
  | succ f ih =>
    intro maxd curd st url
    by_cases h1 : maxd < curd
    · simp only [crawlGo, if_pos h1]; exact StepOK_refl maxd st
    by_cases h2 : url ∈ st.visited
    · simp only [crawlGo, if_neg h1, if_pos h2]; exact StepOK_refl maxd st
    by_cases h3 : env.scrapeRaises url = true
    · simp only [crawlGo, if_neg h1, if_neg h2, can_fetch_always, Bool.not_true,
        Bool.false_eq_true, if_false, if_pos h3]
      refine StepOK_trans (StepOK_trans ?_ (StepOK_pushJob maxd _ url "running" 0 none))
        (StepOK_pushJob maxd _ url "failed" 0 (some (env.errMsg url)))
      exact ⟨fun u hu => List.mem_cons_of_mem _ hu, [], by simp [markVisited],
        List.nodup_nil, by simp⟩
    · simp only [crawlGo, if_neg h1, if_neg h2, can_fetch_always, Bool.not_true,
        Bool.false_eq_true, if_false, if_neg h3]
      have hbase := StepOK_mark_push_fetch maxd st url curd
        ((scrapeModel env (pushJob (markVisited st url) url "running" 0 none).collection
          url (decide (curd ≤ 1))).2) h2 (by omega)
      split
      · -- current_depth < max_depth: link discovery; split on the fetch
        -- strategy and on whether any HTML was obtained
        repeat' split
        all_goals
          first
            | exact StepOK_trans
                (StepOK_trans hbase
                  (crawlLoop_StepOK maxd _ (fun s l => ih maxd (curd + 1) s l) _ (0, _)))
                (StepOK_pushJob maxd _ url "completed" _ none)
            | exact StepOK_trans hbase (StepOK_pushJob maxd _ url "completed" 1 none)
      · exact StepOK_trans hbase (StepOK_pushJob maxd _ url "completed" 1 none)

/-- C2: within one crawl run, `crawl_url` never scrapes the same URL twice,
for every link graph including cyclic ones: a URL already in the visited set
is skipped with result 0 and an unchanged state, and (starting from a fresh
crawler) the log of scraped URLs has no duplicates — every URL is added to
the visited set before recursion into its links. -/
theorem c2_crawl_visited_once (env : CrawlEnv) (st : CrawlState) (url : String)
    (maxd curd : Nat) :
    (url ∈ st.visited → crawl_url env st url maxd curd = (0, st)) ∧
    ((crawl_url env initState url maxd curd).2.fetchLog.map Prod.fst).Nodup := by
  constructor
  · intro h
    exact crawlGo_visited env _ st url maxd curd h
  · obtain ⟨-, Δ, hf, hn, -⟩ :=
      crawlGo_StepOK env (maxd + 1 - curd) maxd curd initState url
    simp only [crawl_url]
    rw [hf]
    simpa using hn

theorem c2_crawl_visited_once_witness :
    "https://a.example/" ∈ (⟨["https://a.example/"], [], [], []⟩ : CrawlState).visited ∧
    crawl_url c10Env ⟨["https://a.example/"], [], [], []⟩ "https://a.example/" 3 0 =
      (0, ⟨["https://a.example/"], [], [], []⟩) ∧
    ((crawl_url c10Env initState "https://a.example/" 3 0).2.fetchLog.map
      Prod.fst).Nodup :=
  ⟨by decide,
    (c2_crawl_visited_once c10Env ⟨["https://a.example/"], [], [], []⟩
      "https://a.example/" 3 0).1 (by decide),
    (c2_crawl_visited_once c10Env initState "https://a.example/" 3 0).2⟩

/-- C3: no scrape occurs at a depth greater than `max_depth`: a call with
`current_depth > max_depth` returns 0 with an unchanged state (so link
recursion at `depth+1` only proceeds from `current_depth < max_depth`), and
every entry of the scrape log of a fresh-crawler run has depth
`≤ max_depth`. -/
theorem c3_depth_bound (env : CrawlEnv) (st : CrawlState) (url : String)
    (maxd curd : Nat) :
    (maxd < curd → crawl_url env st url maxd curd = (0, st)) ∧
    (∀ q ∈ (crawl_url env initState url maxd curd).2.fetchLog, q.2 ≤ maxd) := by
  constructor
  · intro h
    have hf : maxd + 1 - curd = 0 := by omega
    simp only [crawl_url, hf]
    rfl
  · obtain ⟨-, Δ, hf, -, hq⟩ :=
      crawlGo_StepOK env (maxd + 1 - curd) maxd curd initState url
    intro q hqm
    simp only [crawl_url] at hqm
    rw [hf] at hqm
    rcases List.mem_append.mp hqm with h0 | hΔ
    · exact absurd h0 (by simp [initState])
    · exact (hq q hΔ).2.2

theorem c3_depth_bound_witness :
    (1 : Nat) < 2 ∧
    crawl_url c10Env initState "https://a.example/" 1 2 = (0, initState) ∧
    (∀ q ∈ (crawl_url c10Env initState "https://a.example/" 1 0).2.fetchLog,
      q.2 ≤ 1) :=
  ⟨by decide,
    (c3_depth_bound c10Env initState "https://a.example/" 1 2).1 (by decide),
    (c3_depth_bound c10Env initState "https://a.example/" 1 0).2⟩

/-- C10: when both the rendered and the static fetch of a seed URL yield no
content (so `scrape` extracts nothing), `crawl_url` still returns a page
count of 1 and the crawl-job log ends with status `"completed"` and
`pages_crawled = 1`; the content-less fetch is counted as a crawled page and
never recorded as failed. -/
theorem c10_contentless_fetch_completed (env : CrawlEnv) (url : String) (maxd : Nat)
    (hr : env.render url = none) (hs : env.static url = none)
    (hraise : env.scrapeRaises url = false) :
    crawl_url env initState url maxd 0 =
      (1, { visited := [url], fetchLog := [(url, 0)],
            jobLog := [⟨url, "running", 0, none⟩, ⟨url, "completed", 1, none⟩],
            collection := [] }) := by
  simp only [crawl_url, Nat.sub_zero]
  simp only [crawlGo]
  rw [if_neg (by omega : ¬ maxd < 0)]
  rw [if_neg (by simp [initState] : ¬ url ∈ initState.visited)]
  simp only [can_fetch_always, Bool.not_true, Bool.false_eq_true, if_false]
  rw [if_neg (by simp [hraise] : ¬ env.scrapeRaises url = true)]
  have hscrape :
      scrapeModel env (pushJob (markVisited initState url) url "running" 0 none).collection
        url (decide ((0 : Nat) ≤ 1)) = ([], []) := by
    cases hpw : env.use_playwright <;>
      simp [scrapeModel, hpw, hr, hs, optTruthy, pushJob, markVisited, initState]
  rw [hscrape]
  have hfpw : fetchPW env url = none := by
    cases hpw : env.use_playwright <;> simp [fetchPW, hpw, hr]
  by_cases hd : (0 : Nat) < maxd
  · rw [if_pos hd]
    rw [if_neg (by simp [hfpw, hs, optTruthy])]
    simp [recordFetch, pushJob, markVisited, initState]
  · rw [if_neg hd]
    simp [recordFetch, pushJob, markVisited, initState]

theorem c10_contentless_fetch_completed_witness :
    c10Env.render "https://example.edu/" = none ∧
    c10Env.static "https://example.edu/" = none ∧
    c10Env.scrapeRaises "https://example.edu/" = false ∧
    crawl_url c10Env initState "https://example.edu/" 3 0 =
      (1, { visited := ["https://example.edu/"],
            fetchLog := [("https://example.edu/", 0)],
            jobLog := [⟨"https://example.edu/", "running", 0, none⟩,
                       ⟨"https://example.edu/", "completed", 1, none⟩],
            collection := [] }) :=
  ⟨rfl, rfl, rfl,
    c10_contentless_fetch_completed c10Env "https://example.edu/" 3 rfl rfl rfl⟩

end Information
